import Mathlib

/-!
Verification of the types-generator core: a shallow embedding of the
OpenAPI-to-types translation engine (property normalization, the
classifier/handler chain of `getType`, the generator strategy tables and
the document-level driver `generate`), together with theorems settling the
frozen claims about its specification.

The embedding follows the TypeScript source of the repository.  Modules of
the repository that are referenced but whose source is not available
(the `type-guards` predicates, the `utils` string helpers, the Flow and
codec generator tables) are modelled from the specification; each such
definition carries a doc comment saying so.
-/

namespace TypesGenerator

/-- A schema property: a JSON-object node of the schema tree.  Mirrors the
`Property` input shape of the source: every type-describing key is optional
and the variants are distinguished structurally by which keys are present.
Constructor argument order: `$ref`, `type`, `allOf`, `anyOf`, `oneOf`,
`items`, `properties`, `required`, `enum`, `nullable`. -/
inductive Property : Type where
  | mk
      (ref : Option String)
      (type : Option String)
      (allOf : Option (List Property))
      (anyOf : Option (List Property))
      (oneOf : Option (List Property))
      (items : Option Property)
      (properties : Option (List (String × Property)))
      (required : Option (List String))
      (enum : Option (List String))
      (nullable : Option Bool)

/-- The `$ref` field of a property. -/
def Property.ref : Property → Option String
  | .mk r _ _ _ _ _ _ _ _ _ => r

/-- The `type` field of a property. -/
def Property.type : Property → Option String
  | .mk _ t _ _ _ _ _ _ _ _ => t

/-- The `allOf` field of a property. -/
def Property.allOf : Property → Option (List Property)
  | .mk _ _ a _ _ _ _ _ _ _ => a

/-- The `anyOf` field of a property. -/
def Property.anyOf : Property → Option (List Property)
  | .mk _ _ _ a _ _ _ _ _ _ => a

/-- The `oneOf` field of a property. -/
def Property.oneOf : Property → Option (List Property)
  | .mk _ _ _ _ o _ _ _ _ _ => o

/-- The `items` field of a property. -/
def Property.items : Property → Option Property
  | .mk _ _ _ _ _ i _ _ _ _ => i

/-- The `properties` field of a property: the ordered field map of an
object shape. -/
def Property.properties : Property → Option (List (String × Property))
  | .mk _ _ _ _ _ _ p _ _ _ => p

/-- The `required` field of a property. -/
def Property.required : Property → Option (List String)
  | .mk _ _ _ _ _ _ _ r _ _ => r

/-- The `enum` field of a property. -/
def Property.enum : Property → Option (List String)
  | .mk _ _ _ _ _ _ _ _ e _ => e

/-- The `nullable` field of a property. -/
def Property.nullable : Property → Option Bool
  | .mk _ _ _ _ _ _ _ _ _ n => n

/-- Remove the `allOf` key, keeping every other field: the object-rest
`{allOf, ...otherProperties} = property` of `fixErrorsOnProperty`. -/
def Property.eraseAllOf : Property → Property
  | .mk r t _ a o i p rq e n => .mk r t none a o i p rq e n

/-- Remove the `oneOf` key, keeping every other field. -/
def Property.eraseOneOf : Property → Property
  | .mk r t al a _ i p rq e n => .mk r t al a none i p rq e n

/-- Remove the `anyOf` key, keeping every other field. -/
def Property.eraseAnyOf : Property → Property
  | .mk r t al _ o i p rq e n => .mk r t al none o i p rq e n

/-- A property whose only key is `allOf`, as produced by the first branch
of `fixErrorsOnProperty`. -/
def allOfOnly (l : List Property) : Property :=
  .mk none none (some l) none none none none none none none

/-- A property whose only key is `oneOf`, as produced by the second branch
of `fixErrorsOnProperty`. -/
def oneOfOnly (l : List Property) : Property :=
  .mk none none none none (some l) none none none none none

/-- A property whose only key is `anyOf`, as produced by the third branch
of `fixErrorsOnProperty`. -/
def anyOfOnly (l : List Property) : Property :=
  .mk none none none (some l) none none none none none none

/-- Normalization step `fixErrorsOnProperty` of the source: when a
composite keyword (`allOf`, then `oneOf`, then `anyOf`, tested in that
order) coexists with a `type` key on the same object, move every other
field into a trailing anonymous member of the composite child list and
keep only the composite key at the outer level. -/
def fixErrorsOnProperty (p : Property) : Property :=
  if p.allOf.isSome && p.type.isSome then
    allOfOnly (p.allOf.getD [] ++ [p.eraseAllOf])
  else if p.oneOf.isSome && p.type.isSome then
    oneOfOnly (p.oneOf.getD [] ++ [p.eraseOneOf])
  else if p.anyOf.isSome && p.type.isSome then
    anyOfOnly (p.anyOf.getD [] ++ [p.eraseAnyOf])
  else p

/-- Type guard `isReference`: the `$ref` key is present.  Modelled from the
spec: the `type-guards` module is not in the sources; section 4.1 gives the
structural predicates, and the inlined checks of `bin/generate.js` confirm
them. -/
def isReference (p : Property) : Bool := p.ref.isSome

/-- Type guard `isAllOf`: the `allOf` key is present.  Modelled from the
spec (section 4.1) and the inlined check of `bin/generate.js`. -/
def isAllOf (p : Property) : Bool := p.allOf.isSome

/-- Type guard `isOneOf`: the `oneOf` key is present.  Modelled from the
spec (section 4.1) and the inlined check of `bin/generate.js`. -/
def isOneOf (p : Property) : Bool := p.oneOf.isSome

/-- Type guard `isAnyOf`: the `anyOf` key is present.  Modelled from the
spec (section 4.1) and the inlined check of `bin/generate.js`. -/
def isAnyOf (p : Property) : Bool := p.anyOf.isSome

/-- Type guard `isArray`: `type` equals `"array"`.  Modelled from the spec
(section 4.1) and the inlined check of `bin/generate.js`. -/
def isArray (p : Property) : Bool := p.type == some "array"

/-- Type guard `isObject`: `type` equals `"object"`.  Modelled from the
spec (section 4.1) and the inlined check of `bin/generate.js`. -/
def isObject (p : Property) : Bool := p.type == some "object"

/-- Type guard `isEnum`: `type` equals `"string"` and the `enum` key is
present.  Modelled from the spec (section 4.1) and the inlined check of
`bin/generate.js`. -/
def isEnum (p : Property) : Bool := p.type == some "string" && p.enum.isSome

/-- Type guard `isNumber`: `type` equals `"number"`.  Modelled from the
spec (section 4.1). -/
def isNumber (p : Property) : Bool := p.type == some "number"

/-- Type guard `isString`: `type` equals `"string"`.  Modelled from the
spec (section 4.1). -/
def isString (p : Property) : Bool := p.type == some "string"

/-- Type guard `isBoolean`: `type` equals `"boolean"`.  Modelled from the
spec (section 4.1). -/
def isBoolean (p : Property) : Bool := p.type == some "boolean"

/-- Type guard `isInteger`: `type` equals `"integer"`.  Modelled from the
spec (section 4.1). -/
def isInteger (p : Property) : Bool := p.type == some "integer"

/-- Guard `isValidAllOf` of the source: an `allOf` property every one of
whose members is a reference or an object. -/
def isValidAllOf (p : Property) : Bool :=
  isAllOf p && (p.allOf.getD []).all (fun s => isReference s || isObject s)

/-- The three output-type selectors recognized by `getGenerator`. -/
inductive OutputType : Type where
  | TypeScript
  | Flow
  | CodecIoTs
deriving DecidableEq

/-- Caller options: the active generator selector and the
`exitOnInvalidType` flag. -/
structure Options : Type where
  type : OutputType
  exitOnInvalidType : Bool

/-- A generator strategy table: one rendering primitive per field, as in
`models/Generator`. -/
structure Generator : Type where
  getTypeString : String
  getTypeNumber : String
  getTypeInteger : String
  getTypeBoolean : String
  getTypeEnum : List String → String
  getTypeArray : String → String
  getTypeAnyOf : List String → String
  getTypeOneOf : List String → String
  getTypeAllOf : List String → String
  getTypeObject : List String → String
  getTypeReference : String → String
  getProperty : String → Bool → String → String
  getTypeUnknown : String
  addHeader : String → String
  combineTypes : List String → String
  getTypeDefinition : String → String → String
  makeTypeNullable : String → String

/-- JavaScript `Array.prototype.join` with a separator. -/
def joinSep (sep : String) : List String → String
  | [] => ""
  | [x] => x
  | x :: y :: xs => x ++ sep ++ joinSep sep (y :: xs)

/-- The single-quote character, used by the enum renderers. -/
def sq : String := String.singleton (Char.ofNat 39)

/-- Split a character list at every dash. -/
def splitOnDash : List Char → List (List Char)
  | [] => [[]]
  | c :: cs =>
      if c == Char.ofNat 45 then [] :: splitOnDash cs
      else
        match splitOnDash cs with
        | [] => [[c]]
        | t :: ts => (c :: t) :: ts

/-- Capitalize the first character of a token. -/
def upperFirstChars : List Char → List Char
  | [] => []
  | c :: cs => c.toUpper :: cs

/-- Utility `toPascalCase`: split on dashes, capitalize each token, join.
The `utils` module is not in the sources; modelled after the identical
`toCamelCase` helper visible in `bin/generate.js`. -/
def toPascalCase (s : String) : String :=
  String.mk (List.flatten ((splitOnDash s.data).map upperFirstChars))

/-- Check that `pat` occurs at the head of `s` (both as character lists). -/
def startsWithChars : List Char → List Char → Bool
  | [], _ => true
  | _ :: _, [] => false
  | a :: as, b :: bs => a == b && startsWithChars as bs

/-- Replace the first occurrence of `pat` in the character list by `sub`:
JavaScript `String.prototype.replace` with a string pattern. -/
def replaceOnceChars (pat sub : List Char) : List Char → List Char
  | [] => []
  | c :: cs =>
      if startsWithChars pat (c :: cs) then sub ++ (c :: cs).drop pat.length
      else c :: replaceOnceChars pat sub cs

/-- Replace the first occurrence of `pat` in `s` by `sub`. -/
def replaceOnce (pat sub s : String) : String :=
  String.mk (replaceOnceChars pat.data sub.data s.data)

/-- The TypeScript generator table, from
`dist/generators/typescriptGenerator.js`. -/
def typeScriptGenerator : Generator where
  getTypeString := "string"
  getTypeNumber := "number"
  getTypeInteger := "number"
  getTypeBoolean := "boolean"
  getTypeEnum := fun vs => joinSep "|" (vs.map (fun v => sq ++ v ++ sq))
  getTypeArray := fun t => "Array<" ++ t ++ ">"
  getTypeAnyOf := joinSep "|"
  getTypeOneOf := joinSep "|"
  getTypeAllOf := joinSep "&"
  getTypeObject := fun fs => "\x7b" ++ joinSep "," fs ++ "\x7d"
  getTypeReference := toPascalCase
  getProperty := fun key req t =>
    "\"" ++ key ++ "\"" ++ (if req then "" else "?") ++ ":" ++ t
  getTypeUnknown := "unknown"
  addHeader := fun s => "\"use strict\";\n" ++ s
  combineTypes := joinSep ";"
  getTypeDefinition := fun key t => "export type " ++ toPascalCase key ++ "=" ++ t
  makeTypeNullable := fun t => "(" ++ t ++ "|null)"

/-- The Flow generator table.  Modelled from the spec: the
`flowGenerator` module is not in the sources; primitives follow section 4.2
and the Flow-specific shapes visible in `bin/generate.js` (exact objects,
the `mixed` escape type). -/
def flowGenerator : Generator where
  getTypeString := "string"
  getTypeNumber := "number"
  getTypeInteger := "number"
  getTypeBoolean := "boolean"
  getTypeEnum := fun vs => joinSep "|" (vs.map (fun v => sq ++ v ++ sq))
  getTypeArray := fun t => "Array<" ++ t ++ ">"
  getTypeAnyOf := joinSep "|"
  getTypeOneOf := joinSep "|"
  getTypeAllOf := joinSep "&"
  getTypeObject := fun fs => "\x7b|" ++ joinSep "," fs ++ "|\x7d"
  getTypeReference := toPascalCase
  getProperty := fun key req t =>
    "\"" ++ key ++ "\"" ++ (if req then "" else "?") ++ ":" ++ t
  getTypeUnknown := "mixed"
  addHeader := fun s => "// @flow strict\n" ++ s
  combineTypes := joinSep ";"
  getTypeDefinition := fun key t => "export type " ++ toPascalCase key ++ "=" ++ t
  makeTypeNullable := fun t => "?(" ++ t ++ ")"

/-- The codec generator table.  Modelled from the spec: the
`codecGenerator` module is not in the sources; primitives render io-ts
style runtime codecs (section 2), and `addHeader` adds nothing before the
leading TypeScript pass, per the codec invariant of section 8 that the
codec output begins with the TypeScript rendering. -/
def codecGenerator : Generator where
  getTypeString := "t.string"
  getTypeNumber := "t.number"
  getTypeInteger := "t.number"
  getTypeBoolean := "t.boolean"
  getTypeEnum := fun vs =>
    "t.union([" ++ joinSep "," (vs.map (fun v => "t.literal(" ++ sq ++ v ++ sq ++ ")")) ++ "])"
  getTypeArray := fun t => "t.array(" ++ t ++ ")"
  getTypeAnyOf := fun ts => "t.union([" ++ joinSep "," ts ++ "])"
  getTypeOneOf := fun ts => "t.union([" ++ joinSep "," ts ++ "])"
  getTypeAllOf := fun ts => "t.intersection([" ++ joinSep "," ts ++ "])"
  getTypeObject := fun fs => "t.type(\x7b" ++ joinSep "," fs ++ "\x7d)"
  getTypeReference := toPascalCase
  getProperty := fun key _ t => "\"" ++ key ++ "\":" ++ t
  getTypeUnknown := "t.unknown"
  addHeader := fun s => s
  combineTypes := joinSep ";"
  getTypeDefinition := fun key t => "export const " ++ toPascalCase key ++ "=" ++ t
  makeTypeNullable := fun t => "t.union([" ++ t ++ ",t.null])"

/-- Generator selection, keyed on the output type. -/
def getGenerator (opts : Options) : Generator :=
  match opts.type with
  | .TypeScript => typeScriptGenerator
  | .Flow => flowGenerator
  | .CodecIoTs => codecGenerator

/-- Strip the schema path from a reference and render it in the target
naming convention: `getReferenceName` of the source. -/
def getReferenceName (opts : Options) (r : String) : String :=
  (getGenerator opts).getTypeReference (replaceOnce "#/components/schemas/" "" r)

/-- Membership of a field in the required list: `isRequired` of the
source. -/
def isRequiredField (key : String) (req : Option (List String)) : Bool :=
  match req with
  | some ks => ks.contains key
  | none => false

/-- Whether the original property declared `nullable: true`, and if so the
generator's nullable wrap: the `doIf(isNullable(property), makeTypeNullable)`
step of `getType`. -/
def applyNullable (opts : Options) (p : Property) (t : String) : String :=
  if p.nullable == some true then (getGenerator opts).makeTypeNullable t else t

/-- Wrap a plain string in JSON double quotes. -/
def jstr (s : String) : String := "\"" ++ s ++ "\""

mutual

/-- Serialization of a property: the fields are printed in the constructor
order of `Property`, each present field as a JSON key-value pair, mirroring
`JSON.stringify` in the invalid-type diagnostics. -/
def serializeProperty : Property → String
  | .mk r t a o y i pr rq e n =>
      let fields : List String :=
        (match r with
         | some s => [jstr "$ref" ++ ":" ++ jstr s]
         | none => []) ++
        (match t with
         | some s => [jstr "type" ++ ":" ++ jstr s]
         | none => []) ++
        (match a with
         | some l => [jstr "allOf" ++ ":[" ++ serializeList l ++ "]"]
         | none => []) ++
        (match o with
         | some l => [jstr "anyOf" ++ ":[" ++ serializeList l ++ "]"]
         | none => []) ++
        (match y with
         | some l => [jstr "oneOf" ++ ":[" ++ serializeList l ++ "]"]
         | none => []) ++
        (match i with
         | some q => [jstr "items" ++ ":" ++ serializeProperty q]
         | none => []) ++
        (match pr with
         | some l => [jstr "properties" ++ ":\x7b" ++ serializeFields l ++ "\x7d"]
         | none => []) ++
        (match rq with
         | some ks => [jstr "required" ++ ":[" ++ joinSep "," (ks.map jstr) ++ "]"]
         | none => []) ++
        (match e with
         | some vs => [jstr "enum" ++ ":[" ++ joinSep "," (vs.map jstr) ++ "]"]
         | none => []) ++
        (match n with
         | some b => [jstr "nullable" ++ ":" ++ (if b then "true" else "false")]
         | none => [])
      "\x7b" ++ joinSep "," fields ++ "\x7d"

/-- Serialization of a child-property list, comma separated. -/
def serializeList : List Property → String
  | [] => ""
  | [p] => serializeProperty p
  | p :: q :: ps => serializeProperty p ++ "," ++ serializeList (q :: ps)

/-- Serialization of an object field map, comma separated. -/
def serializeFields : List (String × Property) → String
  | [] => ""
  | [(k, p)] => jstr k ++ ":" ++ serializeProperty p
  | (k, p) :: kv :: ps =>
      jstr k ++ ":" ++ serializeProperty p ++ "," ++ serializeFields (kv :: ps)

end

mutual

/-- A structural size measure on properties: every constructor, list cell
and present optional subtree counts one.  Used as the recursion-depth
bound of the translator. -/
def psize : Property → Nat
  | .mk _ _ a o y i pr _ _ _ =>
      1 + optListSize a + optListSize o + optListSize y + optPropSize i + optFieldsSize pr

/-- Size of an optional child-property list. -/
def optListSize : Option (List Property) → Nat
  | none => 0
  | some l => 1 + plistSize l

/-- Size of a child-property list. -/
def plistSize : List Property → Nat
  | [] => 0
  | p :: ps => 1 + psize p + plistSize ps

/-- Size of an optional child property. -/
def optPropSize : Option Property → Nat
  | none => 0
  | some q => 1 + psize q

/-- Size of an optional object field map. -/
def optFieldsSize : Option (List (String × Property)) → Nat
  | none => 0
  | some l => 1 + pfieldsSize l

/-- Size of an object field map. -/
def pfieldsSize : List (String × Property) → Nat
  | [] => 0
  | (_, p) :: ps => 1 + psize p + pfieldsSize ps

end

/-- Left-to-right, fail-fast traversal of a list through `Except`:
`A.array.traverse(E.either)` of fp-ts, as used by the translator. -/
def traverseE {α β : Type} (f : α → Except String β) : List α → Except String (List β)
  | [] => .ok []
  | x :: xs =>
      match f x with
      | .error e => .error e
      | .ok y => Except.map (fun ys => y :: ys) (traverseE f xs)

/-- One step of the classifier/handler chain of `getType`: dispatch the
(already normalized) property `q` through the guards in source order —
reference, valid allOf, anyOf, oneOf, array, object, enum, number, string,
boolean, integer — and fall through to the invalid-type branch.
Recursive translation of children is `rec`. -/
def getTypeCore (opts : Options) (rec : Property → Except String String)
    (q : Property) : Except String String :=
  if isReference q then
    .ok (getReferenceName opts (q.ref.getD ""))
  else if isValidAllOf q then
    Except.map (getGenerator opts).getTypeAllOf (traverseE rec (q.allOf.getD []))
  else if isAnyOf q then
    Except.map (getGenerator opts).getTypeAnyOf (traverseE rec (q.anyOf.getD []))
  else if isOneOf q then
    Except.map (getGenerator opts).getTypeOneOf (traverseE rec (q.oneOf.getD []))
  else if isArray q then
    match q.items with
    | some it => Except.map (getGenerator opts).getTypeArray (rec it)
    | none => .error "TypeError: items is not defined"
  else if isObject q then
    Except.map (getGenerator opts).getTypeObject
      (traverseE
        (fun kv =>
          Except.map ((getGenerator opts).getProperty kv.1 (isRequiredField kv.1 q.required))
            (rec kv.2))
        (q.properties.getD []))
  else if isEnum q then
    .ok ((getGenerator opts).getTypeEnum (q.enum.getD []))
  else if isNumber q then
    .ok (getGenerator opts).getTypeNumber
  else if isString q then
    .ok (getGenerator opts).getTypeString
  else if isBoolean q then
    .ok (getGenerator opts).getTypeBoolean
  else if isInteger q then
    .ok (getGenerator opts).getTypeInteger
  else if opts.exitOnInvalidType then
    .error ("Invalid type: " ++ serializeProperty q)
  else
    .ok (getGenerator opts).getTypeUnknown

/-- Fuel-indexed translator: normalize, dispatch through the chain, and
wrap the result as nullable when the original (pre-normalization) property
declared `nullable: true`.  The fuel only bounds the recursion depth; it is
irrelevant whenever it exceeds `psize` (theorem `getTypeF_eq_getType`). -/
def getTypeF (opts : Options) : Nat → Property → Except String String
  | 0, _ => .error "Fuel exhausted"
  | n + 1, p =>
      Except.map (applyNullable opts p)
        (getTypeCore opts (getTypeF opts n) (fixErrorsOnProperty p))

/-- The translator `getType` of the source: `psize p + 1` units of fuel
always suffice. -/
def getType (opts : Options) (p : Property) : Except String String :=
  getTypeF opts (psize p + 1) p

/-- The named-schema section of a document. -/
structure Components : Type where
  schemas : List (String × Property)

/-- A parsed OpenAPI document: the version string and the optional
components section. -/
structure Swagger : Type where
  openapi : String
  components : Option Components

/-- Extract the named-schema mapping: `getDefinitions` of the source. -/
def getDefinitions (sw : Swagger) : Except String (List (String × Property)) :=
  match sw.components with
  | some c => .ok c.schemas
  | none => .error "There is no definition"

/-- Match of the unanchored regular expression `3\.0\.\d+` at the head of
a character list: the characters `3.0.` followed by at least one digit. -/
def matchesVersionAt : List Char → Bool
  | c3 :: c1 :: c0 :: c2 :: d :: _ =>
      c3 == Char.ofNat 51 && c1 == Char.ofNat 46 && c0 == Char.ofNat 48 &&
      c2 == Char.ofNat 46 && d.isDigit
  | _ => false

/-- JavaScript `openapi.match(/3\.0\.\d+/)` truthiness: some suffix of the
string starts with `3.0.<digit>`. -/
def versionMatches (s : String) : Bool :=
  (s.data.tails).any matchesVersionAt

/-- Version gate `checkOpenApiVersion` of the source. -/
def checkOpenApiVersion (sw : Swagger) : Except String Swagger :=
  if versionMatches sw.openapi then .ok sw
  else .error ("Version not supported: " ++ sw.openapi)

/-- Translate every named schema, in declaration order, into its top-level
declaration: `getTypesFromSchemas` of the source. -/
def getTypesFromSchemas (opts : Options) (schemas : List (String × Property)) :
    Except String (List String) :=
  traverseE
    (fun kv => Except.map ((getGenerator opts).getTypeDefinition kv.1) (getType opts kv.2))
    schemas

/-- Join the translated declarations: `baseDefinitionsToString` of the
source. -/
def baseDefinitionsToString (opts : Options) (schemas : List (String × Property)) :
    Except String String :=
  Except.map (getGenerator opts).combineTypes (getTypesFromSchemas opts schemas)

/-- Applicative concatenation of two `Except` strings, first component in
front; the first component's failure takes precedence: `eitherPrefix` of
the source. -/
def eitherPrepend (b c : Except String String) : Except String String :=
  match b with
  | .error e => .error e
  | .ok tb =>
      match c with
      | .error e => .error e
      | .ok tc => .ok (tb ++ tc)

/-- Render a schema set: for the codec generator the codec declarations
are prefixed by a full TypeScript pass over the same schemas and a
statement terminator; `definitionsToString` of the source. -/
def definitionsToString (opts : Options) (schemas : List (String × Property)) :
    Except String String :=
  if opts.type = OutputType.CodecIoTs then
    eitherPrepend
      (baseDefinitionsToString { opts with type := OutputType.TypeScript } schemas)
      (Except.map (fun s => ";" ++ s) (baseDefinitionsToString opts schemas))
  else
    baseDefinitionsToString opts schemas

/-- The document-level driver `generate` of the source: version gate,
definitions extraction, rendering, header. -/
def generate (opts : Options) (sw : Swagger) : Except String String :=
  (checkOpenApiVersion sw).bind fun sw1 =>
    (getDefinitions sw1).bind fun schemas =>
      Except.map (getGenerator opts).addHeader (definitionsToString opts schemas)

lemma plistSize_lt_of_mem {c : Property} {l : List Property} (h : c ∈ l) :
    psize c < plistSize l := by
  induction l with
  | nil => cases h
  | cons p ps ih =>
      rcases List.mem_cons.mp h with rfl | h2
      · simp only [plistSize]
        omega
      · have := ih h2
        simp only [plistSize]
        omega

lemma pfieldsSize_lt_of_mem {k : String} {c : Property} {l : List (String × Property)}
    (h : (k, c) ∈ l) : psize c < pfieldsSize l := by
  induction l with
  | nil => cases h
  | cons kv ps ih =>
      obtain ⟨k', p'⟩ := kv
      rcases List.mem_cons.mp h with h1 | h2
      · obtain ⟨rfl, rfl⟩ := Prod.mk.injEq .. ▸ h1
        simp only [pfieldsSize]
        omega
      · have := ih h2
        simp only [pfieldsSize]
        omega

lemma psize_lt_of_mem_allOf {p c : Property} (hc : c ∈ p.allOf.getD []) :
    psize c < psize p := by
  obtain ⟨r, t, a, o, y, i, pr, rq, e, n⟩ := p
  cases a with
  | none => simp [Property.allOf] at hc
  | some l =>
      simp only [Property.allOf, Option.getD] at hc
      have := plistSize_lt_of_mem hc
      simp only [psize, optListSize]
      omega

lemma psize_lt_of_mem_anyOf {p c : Property} (hc : c ∈ p.anyOf.getD []) :
    psize c < psize p := by
  obtain ⟨r, t, a, o, y, i, pr, rq, e, n⟩ := p
  cases o with
  | none => simp [Property.anyOf] at hc
  | some l =>
      simp only [Property.anyOf, Option.getD] at hc
      have := plistSize_lt_of_mem hc
      simp only [psize, optListSize]
      omega

lemma psize_lt_of_mem_oneOf {p c : Property} (hc : c ∈ p.oneOf.getD []) :
    psize c < psize p := by
  obtain ⟨r, t, a, o, y, i, pr, rq, e, n⟩ := p
  cases y with
  | none => simp [Property.oneOf] at hc
  | some l =>
      simp only [Property.oneOf, Option.getD] at hc
      have := plistSize_lt_of_mem hc
      simp only [psize, optListSize]
      omega

lemma psize_lt_of_items {p c : Property} (h : p.items = some c) : psize c < psize p := by
  obtain ⟨r, t, a, o, y, i, pr, rq, e, n⟩ := p
  simp only [Property.items] at h
  subst h
  simp only [psize, optPropSize]
  omega

lemma psize_lt_of_mem_props {p c : Property} {k : String}
    (hc : (k, c) ∈ p.properties.getD []) : psize c < psize p := by
  obtain ⟨r, t, a, o, y, i, pr, rq, e, n⟩ := p
  cases pr with
  | none => simp [Property.properties] at hc
  | some l =>
      simp only [Property.properties, Option.getD] at hc
      have := pfieldsSize_lt_of_mem hc
      simp only [psize, optFieldsSize]
      omega

lemma psize_eraseAllOf_lt {p : Property} (h : p.allOf.isSome) :
    psize p.eraseAllOf < psize p := by
  obtain ⟨r, t, a, o, y, i, pr, rq, e, n⟩ := p
  cases a with
  | none => simp [Property.allOf] at h
  | some l =>
      simp only [Property.eraseAllOf, psize, optListSize]
      omega

lemma psize_eraseOneOf_lt {p : Property} (h : p.oneOf.isSome) :
    psize p.eraseOneOf < psize p := by
  obtain ⟨r, t, a, o, y, i, pr, rq, e, n⟩ := p
  cases y with
  | none => simp [Property.oneOf] at h
  | some l =>
      simp only [Property.eraseOneOf, psize, optListSize]
      omega

lemma psize_eraseAnyOf_lt {p : Property} (h : p.anyOf.isSome) :
    psize p.eraseAnyOf < psize p := by
  obtain ⟨r, t, a, o, y, i, pr, rq, e, n⟩ := p
  cases o with
  | none => simp [Property.anyOf] at h
  | some l =>
      simp only [Property.eraseAnyOf, psize, optListSize]
      omega

/-- Every child that the handler chain may recurse into after
normalization is strictly smaller than the original property. -/
lemma psize_child_fixErrors (p : Property) :
    (∀ c ∈ (fixErrorsOnProperty p).allOf.getD [], psize c < psize p) ∧
    (∀ c ∈ (fixErrorsOnProperty p).anyOf.getD [], psize c < psize p) ∧
    (∀ c ∈ (fixErrorsOnProperty p).oneOf.getD [], psize c < psize p) ∧
    (∀ c, (fixErrorsOnProperty p).items = some c → psize c < psize p) ∧
    (∀ k c, (k, c) ∈ (fixErrorsOnProperty p).properties.getD [] → psize c < psize p) := by
  unfold fixErrorsOnProperty
  split_ifs with h1 h2 h3
  · rw [Bool.and_eq_true] at h1
    refine ⟨?_, ?_, ?_, ?_, ?_⟩
    · intro c hc
      simp only [allOfOnly, Property.allOf, Option.getD, List.mem_append,
        List.mem_singleton] at hc
      rcases hc with hc | rfl
      · exact psize_lt_of_mem_allOf hc
      · exact psize_eraseAllOf_lt h1.1
    · intro c hc
      simp [allOfOnly, Property.anyOf] at hc
    · intro c hc
      simp [allOfOnly, Property.oneOf] at hc
    · intro c hc
      simp [allOfOnly, Property.items] at hc
    · intro k c hc
      simp [allOfOnly, Property.properties] at hc
  · rw [Bool.and_eq_true] at h2
    refine ⟨?_, ?_, ?_, ?_, ?_⟩
    · intro c hc
      simp [oneOfOnly, Property.allOf] at hc
    · intro c hc
      simp [oneOfOnly, Property.anyOf] at hc
    · intro c hc
      simp only [oneOfOnly, Property.oneOf, Option.getD, List.mem_append,
        List.mem_singleton] at hc
      rcases hc with hc | rfl
      · exact psize_lt_of_mem_oneOf hc
      · exact psize_eraseOneOf_lt h2.1
    · intro c hc
      simp [oneOfOnly, Property.items] at hc
    · intro k c hc
      simp [oneOfOnly, Property.properties] at hc
  · rw [Bool.and_eq_true] at h3
    refine ⟨?_, ?_, ?_, ?_, ?_⟩
    · intro c hc
      simp [anyOfOnly, Property.allOf] at hc
    · intro c hc
      simp only [anyOfOnly, Property.anyOf, Option.getD, List.mem_append,
        List.mem_singleton] at hc
      rcases hc with hc | rfl
      · exact psize_lt_of_mem_anyOf hc
      · exact psize_eraseAnyOf_lt h3.1
    · intro c hc
      simp [anyOfOnly, Property.oneOf] at hc
    · intro c hc
      simp [anyOfOnly, Property.items] at hc
    · intro k c hc
      simp [anyOfOnly, Property.properties] at hc
  · exact ⟨fun c hc => psize_lt_of_mem_allOf hc,
      fun c hc => psize_lt_of_mem_anyOf hc,
      fun c hc => psize_lt_of_mem_oneOf hc,
      fun c hc => psize_lt_of_items hc,
      fun k c hc => psize_lt_of_mem_props hc⟩

lemma traverseE_congr {α β : Type} {f g : α → Except String β} {l : List α}
    (h : ∀ x ∈ l, f x = g x) : traverseE f l = traverseE g l := by
  induction l with
  | nil => rfl
  | cons x xs ih =>
      simp only [traverseE]
      rw [h x (List.mem_cons_self x xs)]
      cases g x with
      | error e => rfl
      | ok v => rw [ih (fun z hz => h z (List.mem_cons_of_mem x hz))]

lemma getTypeCore_congr {opts : Options} {f g : Property → Except String String}
    {q : Property}
    (hA : ∀ c ∈ q.allOf.getD [], f c = g c)
    (hN : ∀ c ∈ q.anyOf.getD [], f c = g c)
    (hO : ∀ c ∈ q.oneOf.getD [], f c = g c)
    (hI : ∀ c, q.items = some c → f c = g c)
    (hP : ∀ kv ∈ q.properties.getD [], f kv.2 = g kv.2) :
    getTypeCore opts f q = getTypeCore opts g q := by
  unfold getTypeCore
  refine if_congr Iff.rfl rfl ?_
  refine if_congr Iff.rfl ?_ ?_
  · rw [traverseE_congr hA]
  refine if_congr Iff.rfl ?_ ?_
  · rw [traverseE_congr hN]
  refine if_congr Iff.rfl ?_ ?_
  · rw [traverseE_congr hO]
  refine if_congr Iff.rfl ?_ ?_
  · cases hit : q.items with
    | none => simp only [hit]
    | some it =>
        simp only [hit]
        rw [hI it hit]
  refine if_congr Iff.rfl ?_ ?_
  · rw [traverseE_congr (fun kv hkv => by rw [hP kv hkv])]
  rfl

/-- Fuel irrelevance: any fuel exceeding the structural size computes the
translator exactly. -/
theorem getTypeF_eq_getType (opts : Options) :
    ∀ n p, psize p < n → getTypeF opts n p = getType opts p := by
  intro n
  induction n using Nat.strong_induction_on with
  | _ n ih =>
      intro p hp
      match n, hp with
      | n + 1, hp =>
          have hchild := psize_child_fixErrors p
          obtain ⟨hA, hN, hO, hI, hP⟩ := hchild
          have hp1 : psize p ≤ n := Nat.lt_succ_iff.mp hp
          show getTypeF opts (n + 1) p = getTypeF opts (psize p + 1) p
          simp only [getTypeF]
          congr 1
          apply getTypeCore_congr
          · intro c hc
            rw [ih n (Nat.lt_succ_self n) c (Nat.lt_of_lt_of_le (hA c hc) hp1),
              ih (psize p) hp c (hA c hc)]
          · intro c hc
            rw [ih n (Nat.lt_succ_self n) c (Nat.lt_of_lt_of_le (hN c hc) hp1),
              ih (psize p) hp c (hN c hc)]
          · intro c hc
            rw [ih n (Nat.lt_succ_self n) c (Nat.lt_of_lt_of_le (hO c hc) hp1),
              ih (psize p) hp c (hO c hc)]
          · intro c hc
            rw [ih n (Nat.lt_succ_self n) c (Nat.lt_of_lt_of_le (hI c hc) hp1),
              ih (psize p) hp c (hI c hc)]
          · intro kv hkv
            rw [ih n (Nat.lt_succ_self n) kv.2 (Nat.lt_of_lt_of_le (hP kv.1 kv.2 hkv) hp1),
              ih (psize p) hp kv.2 (hP kv.1 kv.2 hkv)]

/-- One-step unfolding of the translator: normalize, dispatch through the
chain with recursive calls to the translator itself, then apply the
nullable wrap of the original property. -/
theorem getType_eq (opts : Options) (p : Property) :
    getType opts p =
      Except.map (applyNullable opts p)
        (getTypeCore opts (getType opts) (fixErrorsOnProperty p)) := by
  obtain ⟨hA, hN, hO, hI, hP⟩ := psize_child_fixErrors p
  show getTypeF opts (psize p + 1) p = _
  simp only [getTypeF]
  congr 1
  apply getTypeCore_congr
  · exact fun c hc => getTypeF_eq_getType opts (psize p) c (hA c hc)
  · exact fun c hc => getTypeF_eq_getType opts (psize p) c (hN c hc)
  · exact fun c hc => getTypeF_eq_getType opts (psize p) c (hO c hc)
  · exact fun c hc => getTypeF_eq_getType opts (psize p) c (hI c hc)
  · exact fun kv hkv => getTypeF_eq_getType opts (psize p) kv.2 (hP kv.1 kv.2 hkv)

lemma fixErrors_of_type_none {p : Property} (h : p.type = none) :
    fixErrorsOnProperty p = p := by
  unfold fixErrorsOnProperty
  simp [h]

lemma allOfOnly_type (l : List Property) : (allOfOnly l).type = none := rfl

lemma oneOfOnly_type (l : List Property) : (oneOfOnly l).type = none := rfl

lemma anyOfOnly_type (l : List Property) : (anyOfOnly l).type = none := rfl

lemma generate_version_error {opts : Options} {sw : Swagger}
    (h : versionMatches sw.openapi = false) :
    generate opts sw = .error ("Version not supported: " ++ sw.openapi) := by
  simp [generate, checkOpenApiVersion, h, Except.bind]

/-- Claim C7: normalization is idempotent: for every property `p`,
`fixErrorsOnProperty (fixErrorsOnProperty p) = fixErrorsOnProperty p`. -/
theorem claim_C7_normalize_idempotent (p : Property) :
    fixErrorsOnProperty (fixErrorsOnProperty p) = fixErrorsOnProperty p := by
  by_cases hA : (p.allOf.isSome && p.type.isSome) = true
  · have h1 : fixErrorsOnProperty p = allOfOnly (p.allOf.getD [] ++ [p.eraseAllOf]) := by
      unfold fixErrorsOnProperty
      rw [if_pos hA]
    rw [h1, fixErrors_of_type_none (allOfOnly_type _)]
  · by_cases hO : (p.oneOf.isSome && p.type.isSome) = true
    · have h1 : fixErrorsOnProperty p = oneOfOnly (p.oneOf.getD [] ++ [p.eraseOneOf]) := by
        unfold fixErrorsOnProperty
        rw [if_neg hA, if_pos hO]
      rw [h1, fixErrors_of_type_none (oneOfOnly_type _)]
    · by_cases hN : (p.anyOf.isSome && p.type.isSome) = true
      · have h1 : fixErrorsOnProperty p = anyOfOnly (p.anyOf.getD [] ++ [p.eraseAnyOf]) := by
          unfold fixErrorsOnProperty
          rw [if_neg hA, if_neg hO, if_pos hN]
        rw [h1, fixErrors_of_type_none (anyOfOnly_type _)]
      · have h1 : fixErrorsOnProperty p = p := by
          unfold fixErrorsOnProperty
          rw [if_neg hA, if_neg hO, if_neg hN]
        rw [h1, h1]

/-- Claim C8: `generate` succeeds only on documents whose version string
matches the pattern `3.0.<digits>` (the unanchored regular-expression
search of the source); on every document whose version does not match,
it fails with the unsupported-version error and performs no further
processing (the error is produced directly by the version gate, before
definitions extraction or translation). -/
theorem claim_C8_version_gate :
    (∀ (opts : Options) (sw : Swagger), versionMatches sw.openapi = false →
      generate opts sw = .error ("Version not supported: " ++ sw.openapi)) ∧
    (∀ (opts : Options) (sw : Swagger) (s : String), generate opts sw = .ok s →
      versionMatches sw.openapi = true) := by
  refine ⟨fun opts sw h => generate_version_error h, fun opts sw s h => ?_⟩
  cases hv : versionMatches sw.openapi with
  | true => rfl
  | false =>
      rw [generate_version_error hv] at h
      exact absurd h (by simp)

/-- Witness for C8 at a concrete document with version `2.0.0`. -/
theorem claim_C8_version_gate_witness :
    versionMatches "2.0.0" = false ∧
      generate ⟨.TypeScript, false⟩ ⟨"2.0.0", none⟩ =
        .error ("Version not supported: " ++ "2.0.0") :=
  ⟨by decide, claim_C8_version_gate.1 ⟨.TypeScript, false⟩ ⟨"2.0.0", none⟩ (by decide)⟩

/-- Claim C9: on documents passing the version gate, a missing
named-schema section makes `generate` fail with the no-definitions error,
and a present one is extracted and handed to the translation pipeline. -/
theorem claim_C9_definitions :
    ∀ (opts : Options) (sw : Swagger), versionMatches sw.openapi = true →
      (sw.components = none → generate opts sw = .error "There is no definition") ∧
      (∀ c, sw.components = some c → generate opts sw =
        Except.map (getGenerator opts).addHeader (definitionsToString opts c.schemas)) := by
  intro opts sw hv
  constructor
  · intro hc
    simp [generate, checkOpenApiVersion, hv, Except.bind, getDefinitions, hc]
  · intro c hc
    simp [generate, checkOpenApiVersion, hv, Except.bind, getDefinitions, hc]

/-- Witness for C9: both branches at concrete documents. -/
theorem claim_C9_definitions_witness :
    versionMatches "3.0.0" = true ∧
      generate ⟨.TypeScript, false⟩ ⟨"3.0.0", none⟩ = .error "There is no definition" :=
  ⟨by decide,
    (claim_C9_definitions ⟨.TypeScript, false⟩ ⟨"3.0.0", none⟩ (by decide)).1 rfl⟩

/-- Claim C6: whenever the codec generator's rendering of a schema set
succeeds, the output is exactly the TypeScript rendering of the same
schema set, then the statement terminator `;`, then the codec
declarations. -/
theorem claim_C6_codec_ts_first :
    ∀ (exitFlag : Bool) (schemas : List (String × Property)) (s : String),
      definitionsToString ⟨.CodecIoTs, exitFlag⟩ schemas = .ok s →
      ∃ ts codec,
        baseDefinitionsToString ⟨.TypeScript, exitFlag⟩ schemas = .ok ts ∧
        baseDefinitionsToString ⟨.CodecIoTs, exitFlag⟩ schemas = .ok codec ∧
        s = ts ++ (";" ++ codec) := by
  intro exitFlag schemas s h
  unfold definitionsToString at h
  rw [if_pos (show (Options.mk OutputType.CodecIoTs exitFlag).type = OutputType.CodecIoTs
    from rfl)] at h
  cases hb : baseDefinitionsToString ⟨.TypeScript, exitFlag⟩ schemas with
  | error e =>
      rw [hb] at h
      simp [eitherPrepend] at h
  | ok tb =>
      rw [hb] at h
      cases hc : baseDefinitionsToString ⟨.CodecIoTs, exitFlag⟩ schemas with
      | error e =>
          rw [hc] at h
          simp [eitherPrepend, Except.map] at h
      | ok tc =>
          rw [hc] at h
          simp only [eitherPrepend, Except.map, Except.ok.injEq] at h
          exact ⟨tb, tc, rfl, rfl, h.symm⟩

/-- TypeScript options with the invalid-type escape enabled. -/
def tsOptions : Options := ⟨.TypeScript, false⟩

/-- TypeScript options with `exitOnInvalidType` enabled. -/
def tsOptionsExit : Options := ⟨.TypeScript, true⟩

/-- The property `\x7btype: string\x7d`. -/
def strProp : Property := .mk none (some "string") none none none none none none none none

/-- The reference property `\x7b$ref: #/components/schemas/A\x7d`. -/
def refA : Property :=
  .mk (some "#/components/schemas/A") none none none none none none none none none

/-- A property with no recognized shape at all: the empty JSON object. -/
def emptyProp : Property := .mk none none none none none none none none none none

/-- Normalization coexistence on a property: `fixErrorsOnProperty` is the
identity when no composite keyword is present. -/
lemma fixErrors_of_no_composite {p : Property} (hA : p.allOf = none)
    (hO : p.oneOf = none) (hN : p.anyOf = none) : fixErrorsOnProperty p = p := by
  unfold fixErrorsOnProperty
  simp [hA, hO, hN]

lemma getTypeCore_ref (opts : Options) (rec : Property → Except String String)
    (r : String) (t : Option String) (a o y : Option (List Property))
    (i : Option Property) (pr : Option (List (String × Property)))
    (rq : Option (List String)) (e : Option (List String)) (n : Option Bool) :
    getTypeCore opts rec (.mk (some r) t a o y i pr rq e n) =
      .ok (getReferenceName opts r) := by
  simp [getTypeCore, isReference, Property.ref, Option.getD]

lemma getTypeCore_allOf (opts : Options) (rec : Property → Except String String)
    {l : List Property} (hval : l.all (fun s => isReference s || isObject s) = true)
    (t : Option String) (o y : Option (List Property)) (i : Option Property)
    (pr : Option (List (String × Property))) (rq : Option (List String))
    (e : Option (List String)) (n : Option Bool) :
    getTypeCore opts rec (.mk none t (some l) o y i pr rq e n) =
      Except.map (getGenerator opts).getTypeAllOf (traverseE rec l) := by
  have h2 : isValidAllOf (.mk none t (some l) o y i pr rq e n) = true := by
    simp only [isValidAllOf, isAllOf, Property.allOf, Option.isSome, Option.getD,
      Bool.true_and]
    exact hval
  simp [getTypeCore, isReference, Property.ref, h2, Property.allOf, Option.getD]

lemma getTypeCore_anyOf (opts : Options) (rec : Property → Except String String)
    (l : List Property) (t : Option String) (y : Option (List Property))
    (i : Option Property) (pr : Option (List (String × Property)))
    (rq : Option (List String)) (e : Option (List String)) (n : Option Bool) :
    getTypeCore opts rec (.mk none t none (some l) y i pr rq e n) =
      Except.map (getGenerator opts).getTypeAnyOf (traverseE rec l) := by
  simp [getTypeCore, isReference, isValidAllOf, isAllOf, isAnyOf, Property.ref,
    Property.allOf, Property.anyOf, Option.getD]

lemma getTypeCore_oneOf (opts : Options) (rec : Property → Except String String)
    (l : List Property) (t : Option String) (i : Option Property)
    (pr : Option (List (String × Property))) (rq : Option (List String))
    (e : Option (List String)) (n : Option Bool) :
    getTypeCore opts rec (.mk none t none none (some l) i pr rq e n) =
      Except.map (getGenerator opts).getTypeOneOf (traverseE rec l) := by
  simp [getTypeCore, isReference, isValidAllOf, isAllOf, isAnyOf, isOneOf, Property.ref,
    Property.allOf, Property.anyOf, Property.oneOf, Option.getD]

lemma getTypeCore_object (opts : Options) (rec : Property → Except String String)
    (i : Option Property) (fields : Option (List (String × Property)))
    (rq : Option (List String)) (e : Option (List String)) (n : Option Bool) :
    getTypeCore opts rec (.mk none (some "object") none none none i fields rq e n) =
      Except.map (getGenerator opts).getTypeObject
        (traverseE
          (fun kv =>
            Except.map ((getGenerator opts).getProperty kv.1 (isRequiredField kv.1 rq))
              (rec kv.2))
          (fields.getD [])) := by
  simp [getTypeCore, isReference, isValidAllOf, isAllOf, isAnyOf, isOneOf, isArray,
    isObject, Property.ref, Property.allOf, Property.anyOf, Property.oneOf,
    Property.type, Property.properties, Property.required, Option.getD]

lemma getTypeCore_enum (opts : Options) (rec : Property → Except String String)
    (i : Option Property) (pr : Option (List (String × Property)))
    (rq : Option (List String)) (vs : List String) (n : Option Bool) :
    getTypeCore opts rec (.mk none (some "string") none none none i pr rq (some vs) n) =
      .ok ((getGenerator opts).getTypeEnum vs) := by
  simp [getTypeCore, isReference, isValidAllOf, isAllOf, isAnyOf, isOneOf, isArray,
    isObject, isEnum, Property.ref, Property.allOf, Property.anyOf, Property.oneOf,
    Property.type, Property.enum, Option.getD]

lemma getTypeCore_string (opts : Options) (rec : Property → Except String String)
    (i : Option Property) (pr : Option (List (String × Property)))
    (rq : Option (List String)) (n : Option Bool) :
    getTypeCore opts rec (.mk none (some "string") none none none i pr rq none n) =
      .ok (getGenerator opts).getTypeString := by
  simp [getTypeCore, isReference, isValidAllOf, isAllOf, isAnyOf, isOneOf, isArray,
    isObject, isEnum, isNumber, isString, Property.ref, Property.allOf, Property.anyOf,
    Property.oneOf, Property.type, Property.enum, Option.getD]

lemma getTypeCore_number (opts : Options) (rec : Property → Except String String)
    (i : Option Property) (pr : Option (List (String × Property)))
    (rq : Option (List String)) (e : Option (List String)) (n : Option Bool) :
    getTypeCore opts rec (.mk none (some "number") none none none i pr rq e n) =
      .ok (getGenerator opts).getTypeNumber := by
  simp [getTypeCore, isReference, isValidAllOf, isAllOf, isAnyOf, isOneOf, isArray,
    isObject, isEnum, isNumber, Property.ref, Property.allOf, Property.anyOf,
    Property.oneOf, Property.type, Property.enum, Option.getD]

lemma getTypeCore_boolean (opts : Options) (rec : Property → Except String String)
    (i : Option Property) (pr : Option (List (String × Property)))
    (rq : Option (List String)) (e : Option (List String)) (n : Option Bool) :
    getTypeCore opts rec (.mk none (some "boolean") none none none i pr rq e n) =
      .ok (getGenerator opts).getTypeBoolean := by
  simp [getTypeCore, isReference, isValidAllOf, isAllOf, isAnyOf, isOneOf, isArray,
    isObject, isEnum, isNumber, isString, isBoolean, Property.ref, Property.allOf,
    Property.anyOf, Property.oneOf, Property.type, Property.enum, Option.getD]

lemma getTypeCore_integer (opts : Options) (rec : Property → Except String String)
    (i : Option Property) (pr : Option (List (String × Property)))
    (rq : Option (List String)) (e : Option (List String)) (n : Option Bool) :
    getTypeCore opts rec (.mk none (some "integer") none none none i pr rq e n) =
      .ok (getGenerator opts).getTypeInteger := by
  simp [getTypeCore, isReference, isValidAllOf, isAllOf, isAnyOf, isOneOf, isArray,
    isObject, isEnum, isNumber, isString, isBoolean, isInteger, Property.ref,
    Property.allOf, Property.anyOf, Property.oneOf, Property.type, Property.enum,
    Option.getD]

/-- Whether the dispatch chain matches no shape at all on `q`, so that
translation falls through to the invalid-type branch. -/
def matchesNoShape (q : Property) : Bool :=
  !(isReference q || isValidAllOf q || isAnyOf q || isOneOf q || isArray q ||
    isObject q || isEnum q || isNumber q || isString q || isBoolean q || isInteger q)

lemma getTypeCore_invalid (opts : Options) (rec : Property → Except String String)
    {q : Property} (h : matchesNoShape q = true) :
    getTypeCore opts rec q =
      if opts.exitOnInvalidType then .error ("Invalid type: " ++ serializeProperty q)
      else .ok (getGenerator opts).getTypeUnknown := by
  simp only [matchesNoShape, Bool.not_eq_true', Bool.or_eq_false_iff] at h
  obtain ⟨⟨⟨⟨⟨⟨⟨⟨⟨⟨h1, h2⟩, h3⟩, h4⟩, h5⟩, h6⟩, h7⟩, h8⟩, h9⟩, h10⟩, h11⟩ := h
  simp [getTypeCore, h1, h2, h3, h4, h5, h6, h7, h8, h9, h10, h11]

instance {ε α : Type} [DecidableEq ε] [DecidableEq α] : DecidableEq (Except ε α) :=
  fun a b =>
  match a, b with
  | .ok x, .ok y => if h : x = y then .isTrue (by rw [h]) else .isFalse (by simp [h])
  | .error x, .error y => if h : x = y then .isTrue (by rw [h]) else .isFalse (by simp [h])
  | .ok _, .error _ => .isFalse (by simp)
  | .error _, .ok _ => .isFalse (by simp)

/-- The C1 example: `\x7btype:object, allOf:[\x7b$ref:A\x7d],
properties:\x7bx:\x7btype:string\x7d\x7d\x7d`. -/
def exC1 : Property :=
  .mk none (some "object") (some [refA]) none none none (some [("x", strProp)]) none
    none none

/-- The anonymous trailing member synthesized for `exC1`: the example
minus its `allOf` key. -/
def anonC1 : Property :=
  .mk none (some "object") none none none none (some [("x", strProp)]) none none none

/-- Claim C1: when a composite keyword coexists with a `type` key,
normalization moves every other field into a trailing anonymous member of
the composite child list and drops them from the outer level (stated for
`allOf`, `oneOf` and `anyOf` in the precedence order of the source); in
particular the example property classifies as a valid AllOf with exactly
two members — the reference and the anonymous object — and translates to
their intersection rather than to an object ignoring `allOf`. -/
theorem claim_C1_composite_normalization :
    (∀ (p : Property) (l : List Property), p.allOf = some l → p.type.isSome = true →
      fixErrorsOnProperty p = allOfOnly (l ++ [p.eraseAllOf])) ∧
    (∀ (p : Property) (l : List Property), p.allOf = none → p.oneOf = some l →
      p.type.isSome = true → fixErrorsOnProperty p = oneOfOnly (l ++ [p.eraseOneOf])) ∧
    (∀ (p : Property) (l : List Property), p.allOf = none → p.oneOf = none →
      p.anyOf = some l → p.type.isSome = true →
      fixErrorsOnProperty p = anyOfOnly (l ++ [p.eraseAnyOf])) ∧
    fixErrorsOnProperty exC1 = allOfOnly [refA, anonC1] ∧
    isValidAllOf (fixErrorsOnProperty exC1) = true ∧
    getType tsOptionsExit exC1 = .ok ("A&\x7b\"x\"?:string\x7d") := by
  refine ⟨?_, ?_, ?_, rfl, by decide, by decide⟩
  · intro p l ha ht
    simp [fixErrorsOnProperty, ha, ht, Option.getD]
  · intro p l ha ho ht
    simp [fixErrorsOnProperty, ha, ho, ht, Option.getD]
  · intro p l ha ho hn ht
    simp [fixErrorsOnProperty, ha, ho, hn, ht, Option.getD]

/-- Witness for C1: the general normalization statement applied to the
concrete example. -/
theorem claim_C1_composite_normalization_witness :
    exC1.allOf = some [refA] ∧ exC1.type.isSome = true ∧
      fixErrorsOnProperty exC1 = allOfOnly ([refA] ++ [exC1.eraseAllOf]) :=
  ⟨rfl, rfl, claim_C1_composite_normalization.1 exC1 [refA] rfl rfl⟩

/-- Claim C4: translating an object property whose fields are a succeeding
`a` followed by a failing `b` propagates exactly `b`'s failure (the first
failure of the left-to-right, depth-first traversal; `a`'s success is
discarded); and with `exitOnInvalidType` enabled, a property matching no
shape fails with the invalid-type error carrying its serialized form. -/
theorem claim_C4_fail_fast :
    (∀ (opts : Options) (ka kb : String) (a b : Property)
      (req : Option (List String)) (ta : String) (e : String),
      getType opts a = .ok ta → getType opts b = .error e →
      getType opts
          (.mk none (some "object") none none none none (some [(ka, a), (kb, b)]) req
            none none) =
        .error e) ∧
    (∀ (g : OutputType) (b : Property), matchesNoShape (fixErrorsOnProperty b) = true →
      getType ⟨g, true⟩ b =
        .error ("Invalid type: " ++ serializeProperty (fixErrorsOnProperty b))) := by
  constructor
  · intro opts ka kb a b req ta e ha hb
    rw [getType_eq,
      fixErrors_of_no_composite
        (p := .mk none (some "object") none none none none (some [(ka, a), (kb, b)]) req
          none none)
        rfl rfl rfl,
      getTypeCore_object]
    simp [traverseE, ha, hb, Except.map, Option.getD]
  · intro g b h
    rw [getType_eq, getTypeCore_invalid _ _ h]
    simp [Except.map]

/-- Witness for C4: object `\x7ba: string-typed, b: empty\x7d` under the
TypeScript generator with `exitOnInvalidType` fails citing `b`'s
serialization. -/
theorem claim_C4_fail_fast_witness :
    getType tsOptionsExit strProp = .ok "string" ∧
      getType tsOptionsExit emptyProp = .error ("Invalid type: " ++ "\x7b\x7d") ∧
      getType tsOptionsExit
          (.mk none (some "object") none none none none
            (some [("a", strProp), ("b", emptyProp)]) none none none) =
        .error ("Invalid type: " ++ "\x7b\x7d") :=
  ⟨by decide, by decide,
    claim_C4_fail_fast.1 tsOptionsExit "a" "b" strProp emptyProp none "string"
      ("Invalid type: " ++ "\x7b\x7d") (by decide) (by decide)⟩

/-- Translation of a valid `allOf` composite: children are translated by
`traverseE` and joined by the generator's intersection, with the outer
nullable wrap of the original property. -/
lemma getType_validAllOf {opts : Options} {p : Property} {l : List Property}
    (hr : p.ref = none) (ht : p.type = none) (ha : p.allOf = some l)
    (hval : l.all (fun s => isReference s || isObject s) = true) :
    getType opts p =
      Except.map (applyNullable opts p)
        (Except.map (getGenerator opts).getTypeAllOf (traverseE (getType opts) l)) := by
  obtain ⟨r, t, a, o, y, i, pr, rq, e, n⟩ := p
  simp only [Property.ref] at hr
  simp only [Property.type] at ht
  simp only [Property.allOf] at ha
  subst hr ht ha
  have hfix : fixErrorsOnProperty (Property.mk none none (some l) o y i pr rq e n) =
      Property.mk none none (some l) o y i pr rq e n := fixErrors_of_type_none rfl
  rw [getType_eq, hfix, getTypeCore_allOf _ _ hval]

/-- Translation of an `anyOf` composite (no reference, no `type`, no
`allOf`): children are translated by `traverseE` and joined by the
generator's union. -/
lemma getType_anyOf_shape {opts : Options} {p : Property} {l : List Property}
    (hr : p.ref = none) (ht : p.type = none) (ha : p.allOf = none)
    (hn : p.anyOf = some l) :
    getType opts p =
      Except.map (applyNullable opts p)
        (Except.map (getGenerator opts).getTypeAnyOf (traverseE (getType opts) l)) := by
  obtain ⟨r, t, a, o, y, i, pr, rq, e, n⟩ := p
  simp only [Property.ref] at hr
  simp only [Property.type] at ht
  simp only [Property.allOf] at ha
  simp only [Property.anyOf] at hn
  subst hr ht ha hn
  have hfix : fixErrorsOnProperty (Property.mk none none none (some l) y i pr rq e n) =
      Property.mk none none none (some l) y i pr rq e n := fixErrors_of_type_none rfl
  rw [getType_eq, hfix, getTypeCore_anyOf]

/-- Translation of a `oneOf` composite (no reference, no `type`, no
`allOf`, no `anyOf`): children are translated by `traverseE` and joined by
the generator's union. -/
lemma getType_oneOf_shape {opts : Options} {p : Property} {l : List Property}
    (hr : p.ref = none) (ht : p.type = none) (ha : p.allOf = none)
    (hn : p.anyOf = none) (ho : p.oneOf = some l) :
    getType opts p =
      Except.map (applyNullable opts p)
        (Except.map (getGenerator opts).getTypeOneOf (traverseE (getType opts) l)) := by
  obtain ⟨r, t, a, o, y, i, pr, rq, e, n⟩ := p
  simp only [Property.ref] at hr
  simp only [Property.type] at ht
  simp only [Property.allOf] at ha
  simp only [Property.anyOf] at hn
  simp only [Property.oneOf] at ho
  subst hr ht ha hn ho
  have hfix : fixErrorsOnProperty (Property.mk none none none none (some l) i pr rq e n) =
      Property.mk none none none none (some l) i pr rq e n := fixErrors_of_type_none rfl
  rw [getType_eq, hfix, getTypeCore_oneOf]

lemma traverseE_ok_of_all {α β : Type} {f : α → Except String β} {g : α → β}
    {l : List α} (h : ∀ x ∈ l, f x = .ok (g x)) : traverseE f l = .ok (l.map g) := by
  induction l with
  | nil => rfl
  | cons x xs ih =>
      simp only [traverseE, h x (List.mem_cons_self x xs)]
      rw [ih (fun z hz => h z (List.mem_cons_of_mem x hz))]
      rfl

lemma traverseE_error_of_first {α β : Type} {f : α → Except String β}
    {pre : List α} {c : α} {post : List α} {e : String}
    (hpre : ∀ x ∈ pre, ∃ t, f x = .ok t) (hc : f c = .error e) :
    traverseE f (pre ++ c :: post) = .error e := by
  induction pre with
  | nil => simp [traverseE, hc]
  | cons x xs ih =>
      obtain ⟨t, hx⟩ := hpre x (List.mem_cons_self x xs)
      simp only [List.cons_append, traverseE, hx]
      have ih1 := ih (fun z hz => hpre z (List.mem_cons_of_mem x hz))
      rw [show xs.append (c :: post) = xs ++ c :: post from rfl, ih1]
      rfl

/-- Claim C3 (amended): `anyOf` and `oneOf` composites, and `allOf`
composites all of whose members are references or objects, translate all
children left-to-right through `traverseE` and join the rendered children
in original order; when every child succeeds the traversal returns them in
order, and the first failing child's error is propagated unchanged. -/
theorem claim_C3_composite_translation :
    (∀ (opts : Options) (p : Property) (l : List Property),
      p.ref = none → p.type = none → p.allOf = some l →
      l.all (fun s => isReference s || isObject s) = true →
      getType opts p =
        Except.map (applyNullable opts p)
          (Except.map (getGenerator opts).getTypeAllOf (traverseE (getType opts) l))) ∧
    (∀ (opts : Options) (p : Property) (l : List Property),
      p.ref = none → p.type = none → p.allOf = none → p.anyOf = some l →
      getType opts p =
        Except.map (applyNullable opts p)
          (Except.map (getGenerator opts).getTypeAnyOf (traverseE (getType opts) l))) ∧
    (∀ (opts : Options) (p : Property) (l : List Property),
      p.ref = none → p.type = none → p.allOf = none → p.anyOf = none →
      p.oneOf = some l →
      getType opts p =
        Except.map (applyNullable opts p)
          (Except.map (getGenerator opts).getTypeOneOf (traverseE (getType opts) l))) ∧
    (∀ (opts : Options) (g : Property → String) (l : List Property),
      (∀ x ∈ l, getType opts x = .ok (g x)) →
      traverseE (getType opts) l = .ok (l.map g)) ∧
    (∀ (opts : Options) (pre : List Property) (c : Property) (post : List Property)
      (e : String),
      (∀ x ∈ pre, ∃ t, getType opts x = .ok t) → getType opts c = .error e →
      traverseE (getType opts) (pre ++ c :: post) = .error e) :=
  ⟨fun _ _ _ => getType_validAllOf,
    fun _ _ _ => getType_anyOf_shape,
    fun _ _ _ => getType_oneOf_shape,
    fun _ _ _ => traverseE_ok_of_all,
    fun _ _ _ _ _ => traverseE_error_of_first⟩

/-- Witness for C3: an `anyOf` of a string-typed and a reference child
translates to their union. -/
theorem claim_C3_composite_translation_witness :
    getType tsOptions
        (.mk none none none (some [strProp, refA]) none none none none none none) =
      Except.map (applyNullable tsOptions
          (.mk none none none (some [strProp, refA]) none none none none none none))
        (Except.map (getGenerator tsOptions).getTypeAnyOf
          (traverseE (getType tsOptions) [strProp, refA])) :=
  claim_C3_composite_translation.2.1 tsOptions _ [strProp, refA] rfl rfl rfl rfl

/-- Counterexample for C3 as frozen: the composite
`\x7ballOf: [\x7btype: string\x7d]\x7d` has a single child that translates
successfully to `string`, yet the property does not translate to the
intersection of its children: it falls through to the invalid-type branch
(`unknown` under the TypeScript generator without `exitOnInvalidType`). -/
theorem claim_C3_counterexample :
    getType tsOptions strProp = .ok "string" ∧
      traverseE (getType tsOptions) [strProp] = .ok ["string"] ∧
      getType tsOptions (.mk none none (some [strProp]) none none none none none none none) =
        .ok "unknown" ∧
      getType tsOptions (.mk none none (some [strProp]) none none none none none none none) ≠
        Except.map (getGenerator tsOptions).getTypeAllOf
          (traverseE (getType tsOptions) [strProp]) :=
  ⟨by decide, by decide, by decide, by decide⟩

/-- Claim C10: a property carrying both `allOf` and `oneOf`/`anyOf` (but no
`type` and no reference), with every `allOf` member a reference or an
object, is handled deterministically as an AllOf composite: the result is
the intersection of the `allOf` members' translations, the other composite
keyword is ignored, and no coexistence validation error is raised, for
every generator and either value of `exitOnInvalidType`. -/
theorem claim_C10_allOf_precedence :
    ∀ (opts : Options) (p : Property) (l m : List Property),
      p.ref = none → p.type = none → p.allOf = some l →
      l.all (fun s => isReference s || isObject s) = true →
      (p.oneOf = some m ∨ p.anyOf = some m) →
      getType opts p =
        Except.map (applyNullable opts p)
          (Except.map (getGenerator opts).getTypeAllOf (traverseE (getType opts) l)) :=
  fun _ _ _ _ hr ht ha hval _ => getType_validAllOf hr ht ha hval

/-- Witness for C10: `\x7ballOf: [ref A], oneOf: [\x7btype: string\x7d]\x7d`
translates to `A` under the TypeScript generator with `exitOnInvalidType`
enabled; the `oneOf` member is ignored. -/
theorem claim_C10_allOf_precedence_witness :
    getType tsOptionsExit
        (.mk none none (some [refA]) none (some [strProp]) none none none none none) =
      Except.map (applyNullable tsOptionsExit
          (.mk none none (some [refA]) none (some [strProp]) none none none none none))
        (Except.map (getGenerator tsOptionsExit).getTypeAllOf
          (traverseE (getType tsOptionsExit) [refA])) ∧
    getType tsOptionsExit
        (.mk none none (some [refA]) none (some [strProp]) none none none none none) =
      .ok "A" :=
  ⟨claim_C10_allOf_precedence tsOptionsExit _ [refA] [strProp] rfl rfl rfl (by decide)
      (Or.inl rfl),
    by decide⟩

/-- The nullable-flagged counterpart of a property: identical except
`nullable: true`. -/
def setNullableTrue : Property → Property
  | .mk r t a o y i pr rq e _ => .mk r t a o y i pr rq e (some true)

lemma setNullableTrue_nullable (p : Property) :
    (setNullableTrue p).nullable = some true := by
  cases p
  rfl

lemma setNullableTrue_fields (p : Property) :
    (setNullableTrue p).ref = p.ref ∧ (setNullableTrue p).type = p.type ∧
    (setNullableTrue p).allOf = p.allOf ∧ (setNullableTrue p).anyOf = p.anyOf ∧
    (setNullableTrue p).oneOf = p.oneOf ∧ (setNullableTrue p).items = p.items ∧
    (setNullableTrue p).properties = p.properties ∧
    (setNullableTrue p).required = p.required ∧ (setNullableTrue p).enum = p.enum := by
  cases p
  exact ⟨rfl, rfl, rfl, rfl, rfl, rfl, rfl, rfl, rfl⟩

/-- A property fixed by normalization has no composite keyword coexisting
with a `type` key. -/
lemma fixErrors_fixed_conditions {p : Property} (h : fixErrorsOnProperty p = p) :
    (p.allOf.isSome && p.type.isSome) = false ∧
    (p.oneOf.isSome && p.type.isSome) = false ∧
    (p.anyOf.isSome && p.type.isSome) = false := by
  by_cases h1 : (p.allOf.isSome && p.type.isSome) = true
  · exfalso
    have hfix : fixErrorsOnProperty p = allOfOnly (p.allOf.getD [] ++ [p.eraseAllOf]) := by
      unfold fixErrorsOnProperty
      rw [if_pos h1]
    rw [h] at hfix
    have ht : p.type = none := by rw [hfix]; rfl
    rw [Bool.and_eq_true] at h1
    rw [ht] at h1
    exact absurd h1.2 (by simp)
  · by_cases h2 : (p.oneOf.isSome && p.type.isSome) = true
    · exfalso
      have hfix : fixErrorsOnProperty p = oneOfOnly (p.oneOf.getD [] ++ [p.eraseOneOf]) := by
        unfold fixErrorsOnProperty
        rw [if_neg h1, if_pos h2]
      rw [h] at hfix
      have ht : p.type = none := by rw [hfix]; rfl
      rw [Bool.and_eq_true] at h2
      rw [ht] at h2
      exact absurd h2.2 (by simp)
    · by_cases h3 : (p.anyOf.isSome && p.type.isSome) = true
      · exfalso
        have hfix : fixErrorsOnProperty p = anyOfOnly (p.anyOf.getD [] ++ [p.eraseAnyOf]) := by
          unfold fixErrorsOnProperty
          rw [if_neg h1, if_neg h2, if_pos h3]
        rw [h] at hfix
        have ht : p.type = none := by rw [hfix]; rfl
        rw [Bool.and_eq_true] at h3
        rw [ht] at h3
        exact absurd h3.2 (by simp)
      · exact ⟨Bool.not_eq_true _ ▸ h1, Bool.not_eq_true _ ▸ h2, Bool.not_eq_true _ ▸ h3⟩

/-- The dispatch chain does not read the `nullable` flag on the success
path: a successful dispatch of `p` is also the dispatch of its
nullable-flagged counterpart. -/
lemma guards_setNullableTrue (p : Property) :
    isReference (setNullableTrue p) = isReference p ∧
    isValidAllOf (setNullableTrue p) = isValidAllOf p ∧
    isAnyOf (setNullableTrue p) = isAnyOf p ∧
    isOneOf (setNullableTrue p) = isOneOf p ∧
    isArray (setNullableTrue p) = isArray p ∧
    isObject (setNullableTrue p) = isObject p ∧
    isEnum (setNullableTrue p) = isEnum p ∧
    isNumber (setNullableTrue p) = isNumber p ∧
    isString (setNullableTrue p) = isString p ∧
    isBoolean (setNullableTrue p) = isBoolean p ∧
    isInteger (setNullableTrue p) = isInteger p := by
  cases p
  exact ⟨rfl, rfl, rfl, rfl, rfl, rfl, rfl, rfl, rfl, rfl, rfl⟩

lemma getTypeCore_setNullable {opts : Options} {f : Property → Except String String}
    {p : Property} {u : String} (h : getTypeCore opts f p = .ok u) :
    getTypeCore opts f (setNullableTrue p) = .ok u := by
  obtain ⟨href, htype, hallOf, hanyOf, honeOf, hitems, hprops, hreq, henum⟩ :=
    setNullableTrue_fields p
  obtain ⟨g1, g2, g3, g4, g5, g6, g7, g8, g9, g10, g11⟩ := guards_setNullableTrue p
  unfold getTypeCore at h ⊢
  rw [g1, g2, g3, g4, g5, g6, g7, g8, g9, g10, g11, href, hallOf, hanyOf, honeOf,
    hitems, hprops, hreq, henum]
  by_cases h1 : isReference p = true
  · rw [if_pos h1] at h ⊢
    exact h
  · rw [if_neg h1] at h ⊢
    by_cases h2 : isValidAllOf p = true
    · rw [if_pos h2] at h ⊢
      exact h
    · rw [if_neg h2] at h ⊢
      by_cases h3 : isAnyOf p = true
      · rw [if_pos h3] at h ⊢
        exact h
      · rw [if_neg h3] at h ⊢
        by_cases h4 : isOneOf p = true
        · rw [if_pos h4] at h ⊢
          exact h
        · rw [if_neg h4] at h ⊢
          by_cases h5 : isArray p = true
          · rw [if_pos h5] at h ⊢
            exact h
          · rw [if_neg h5] at h ⊢
            by_cases h6 : isObject p = true
            · rw [if_pos h6] at h ⊢
              exact h
            · rw [if_neg h6] at h ⊢
              by_cases h7 : isEnum p = true
              · rw [if_pos h7] at h ⊢
                exact h
              · rw [if_neg h7] at h ⊢
                by_cases h8 : isNumber p = true
                · rw [if_pos h8] at h ⊢
                  exact h
                · rw [if_neg h8] at h ⊢
                  by_cases h9 : isString p = true
                  · rw [if_pos h9] at h ⊢
                    exact h
                  · rw [if_neg h9] at h ⊢
                    by_cases h10 : isBoolean p = true
                    · rw [if_pos h10] at h ⊢
                      exact h
                    · rw [if_neg h10] at h ⊢
                      by_cases h11 : isInteger p = true
                      · rw [if_pos h11] at h ⊢
                        exact h
                      · rw [if_neg h11] at h ⊢
                        by_cases h12 : opts.exitOnInvalidType = true
                        · rw [if_pos h12] at h
                          exact absurd h (by simp)
                        · rw [if_neg h12] at h ⊢
                          exact h

/-- On success, the nullable wrap of a non-nullable property is the
identity. -/
lemma applyNullable_of_ne {opts : Options} {p : Property}
    (h : p.nullable ≠ some true) (s : String) : applyNullable opts p s = s := by
  unfold applyNullable
  have hb : (p.nullable == some true) = false := by
    cases hpn : p.nullable with
    | none => rfl
    | some b =>
        cases b with
        | true => exact absurd hpn h
        | false => rfl
  rw [hb]
  rfl

/-- Claim C2 (amended): for every property `p` not subject to coexistence
normalization (`fixErrorsOnProperty` leaves it unchanged), not already
flagged nullable, and whose translation succeeds, the translation of its
nullable-flagged counterpart is exactly the generator's nullable wrap of
the translation of `p`. -/
theorem claim_C2_nullable_wrap :
    ∀ (opts : Options) (p : Property) (t : String),
      fixErrorsOnProperty p = p → p.nullable ≠ some true →
      getType opts p = .ok t →
      getType opts (setNullableTrue p) =
        .ok ((getGenerator opts).makeTypeNullable t) := by
  intro opts p t hfix hnul hok
  obtain ⟨c1, c2, c3⟩ := fixErrors_fixed_conditions hfix
  obtain ⟨href, htype, hallOf, hanyOf, honeOf, hitems, hprops, hreq, henum⟩ :=
    setNullableTrue_fields p
  have hfix1 : fixErrorsOnProperty (setNullableTrue p) = setNullableTrue p := by
    unfold fixErrorsOnProperty
    rw [hallOf, hanyOf, honeOf, htype, c1, c2, c3]
    simp
  rw [getType_eq, hfix] at hok
  cases hcore : getTypeCore opts (getType opts) p with
  | error e =>
      rw [hcore] at hok
      exact absurd hok (by simp [Except.map])
  | ok u =>
      rw [hcore] at hok
      simp only [Except.map, applyNullable_of_ne hnul, Except.ok.injEq] at hok
      subst hok
      rw [getType_eq, hfix1, getTypeCore_setNullable hcore]
      simp only [Except.map, applyNullable, setNullableTrue_nullable]
      rfl

/-- Witness for C2 (amended): the string-typed property translates to
`string`, and its nullable counterpart to `(string|null)`. -/
theorem claim_C2_nullable_wrap_witness :
    fixErrorsOnProperty strProp = strProp ∧ strProp.nullable ≠ some true ∧
      getType tsOptions strProp = .ok "string" ∧
      getType tsOptions (setNullableTrue strProp) =
        .ok ((getGenerator tsOptions).makeTypeNullable "string") :=
  ⟨rfl, by decide, by decide,
    claim_C2_nullable_wrap tsOptions strProp "string" rfl (by decide) (by decide)⟩

/-- Counterexample for C2 as frozen: on the property
`\x7btype: object, allOf: [ref A]\x7d` the coexistence normalization moves
the `nullable: true` flag of the counterpart into the synthesized trailing
anonymous member, which receives its own inner nullable wrap, so the
translation of the counterpart is not the outer wrap of the original
translation. -/
theorem claim_C2_counterexample :
    getType tsOptions
        (setNullableTrue (.mk none (some "object") (some [refA]) none none none none
          none none none)) =
      .ok "(A&(\x7b\x7d|null)|null)" ∧
    Except.map (getGenerator tsOptions).makeTypeNullable
        (getType tsOptions
          (.mk none (some "object") (some [refA]) none none none none none none none)) =
      .ok "(A&\x7b\x7d|null)" ∧
    ("(A&(\x7b\x7d|null)|null)" : String) ≠ "(A&\x7b\x7d|null)" :=
  ⟨by decide, by decide, by decide⟩

/-- The Pet property of the end-to-end example:
`\x7btype: object, required: [name],
properties: \x7bname: string, age: integer nullable\x7d\x7d`. -/
def petProp : Property :=
  .mk none (some "object") none none none none
    (some [("name", strProp),
      ("age", .mk none (some "integer") none none none none none none none (some true))])
    (some ["name"]) none none

/-- The Pet schema set. -/
def petSchemas : List (String × Property) := [("Pet", petProp)]

/-- The Pet document, version `3.0.0`. -/
def petDoc : Swagger := ⟨"3.0.0", some ⟨petSchemas⟩⟩

/-- Counterexample for C5 as frozen: `generate` does not return exactly
the `export type Pet=...` declaration, because the generator's header is
prepended. -/
theorem claim_C5_counterexample :
    generate tsOptions petDoc ≠
      .ok "export type Pet=\x7b\"name\":string,\"age\"?:(number|null)\x7d" := by
  decide

/-- Claim C5 (amended): on the Pet document, `generate` with the
TypeScript generator produces exactly the TypeScript header
`"use strict";` plus newline, followed by
`export type Pet=\x7b"name":string,"age"?:(number|null)\x7d` — field order
is declaration order, `age` is optional since absent from `required`, and
`integer` renders as `number` wrapped as `(number|null)`. -/
theorem claim_C5_generate_pet :
    generate tsOptions petDoc =
      .ok ("\"use strict\";\n" ++
        "export type Pet=\x7b\"name\":string,\"age\"?:(number|null)\x7d") := by
  decide

/-- Witness for C6: the codec rendering of the Pet schema set decomposes
into the TypeScript pass, the terminator and the codec pass. -/
theorem claim_C6_codec_ts_first_witness :
    ∃ ts codec,
      baseDefinitionsToString ⟨.TypeScript, false⟩ petSchemas = .ok ts ∧
      baseDefinitionsToString ⟨.CodecIoTs, false⟩ petSchemas = .ok codec ∧
      ("export type Pet=\x7b\"name\":string,\"age\"?:(number|null)\x7d" ++
          ";export const Pet=t.type(\x7b\"name\":t.string,\"age\":t.union([t.number,t.null])\x7d)" :
          String) =
        ts ++ (";" ++ codec) :=
  claim_C6_codec_ts_first false petSchemas _ (by decide)

end TypesGenerator
